import Mathlib

/-!
Shallow embedding of `nextgen/bcbio/solexa/samplesheet.py`.

The module converts Illumina SampleSheet CSV rows into a nested run-info
structure, assigns numeric ids to multiplexing barcodes, and locates the
sample sheet matching a run's flowcell name by fuzzy matching.

`_read_input_csv` yields 5-tuples `(fc_id, lane, sample_id, genome, barcode)`;
we embed that tuple as the structure `SampleRec` and model the operations on
the parsed record level.  File-system interaction in `run_has_samplesheet`
is modelled by an explicit environment: each configured directory carries its
`os.path.exists` flag and the parsed contents of its `*.csv` files.
-/

namespace Bcbb

/-- One parsed data row of a SampleSheet CSV file: the 5-tuple yielded by
`_read_input_csv`. -/
structure SampleRec where
  fc_id : String
  lane : String
  sample_id : String
  genome : String
  barcode : String
deriving DecidableEq

/-- One entry of the `multiplex` list built by `_organize_lanes`. -/
structure MultiplexEntry where
  barcode_type : String
  barcode_id : Nat
  sequence : String
  name : String
deriving DecidableEq

/-- One lane dictionary produced by `_organize_lanes`; absence of the
`multiplex` dict key is modelled by `multiplex = none`. -/
structure LaneEntry where
  lane : String
  genome_build : String
  analysis : String
  description : String
  multiplex : Option (List MultiplexEntry)
deriving DecidableEq

/-- The grouping key `lambda x: (x[1], x[3])` of `_organize_lanes`. -/
def laneKey (r : SampleRec) : String × String := (r.lane, r.genome)

/-- One step of `itertools.groupby`: prepend an element to an existing
decomposition into maximal runs of equal keys. -/
def groupbyCons {α κ : Type} [DecidableEq κ] (key : α → κ) (x : α) :
    List (List α) → List (List α)
  | [] => [[x]]
  | [] :: gs => [x] :: gs
  | (y :: g) :: gs =>
    if key x = key y then (x :: y :: g) :: gs else [x] :: (y :: g) :: gs

/-- `itertools.groupby`: split a list into maximal contiguous runs of
elements sharing the same key (groups materialized, keys recoverable from
the members). -/
def groupby {α κ : Type} [DecidableEq κ] (key : α → κ) : List α → List (List α)
  | [] => []
  | x :: xs => groupbyCons key x (groupby key xs)

/-- The barcode-id table built by `_generate_barcode_ids`: a Python dict
from barcode sequence to `(barcode type, numeric id)`, modelled as an
association list in the order the ids are assigned. -/
abbrev BarcodeIds := List (String × String × Nat)

/-- Comparison used by Python's `list.sort` on strings. -/
def strLe (a b : String) : Bool := decide (a ≤ b)

/-- The list `barcodes` of `_generate_barcode_ids` after
`barcodes = list(set([x[-1] for x in info_iter]))` and `barcodes.sort()`:
the distinct barcode sequences in ascending order. -/
def sortedBarcodes (info : List SampleRec) : List String :=
  ((info.map (fun r => r.barcode)).dedup).mergeSort strLe

/-- `_generate_barcode_ids`: collect the distinct barcode sequences
(`list(set(...))` of field `x[-1]`), sort them, and assign ids `1, 2, ...`
paired with the constant type `"SampleSheet"`. -/
def generate_barcode_ids (info : List SampleRec) : BarcodeIds :=
  (sortedBarcodes info).enum.map (fun p => (p.2, ("SampleSheet", p.1 + 1)))

/-- The body of the `for (lane, org), info in itertools.groupby(...)` loop of
`_organize_lanes`, applied to one group.  `none` models the `KeyError` a
failed `barcode_ids[bc_seq]` lookup would raise; the `[]` case cannot arise
for groups produced by `groupby`.  Note the source sets the description of a
singleton group to `info[0][1]`, which is the record's lane field. -/
def processGroup (barcode_ids : BarcodeIds) : List SampleRec → Option LaneEntry
  | [] => none
  | r :: rest =>
    if rest.isEmpty then
      some { lane := r.lane, genome_build := r.genome, analysis := "Standard",
             description := r.lane, multiplex := none }
    else
      ((r :: rest).mapM (fun x =>
          (barcode_ids.lookup x.barcode).map (fun bt =>
            ({ barcode_type := bt.1, barcode_id := bt.2, sequence := x.barcode,
               name := x.sample_id } : MultiplexEntry)))).map (fun mult =>
        { lane := r.lane, genome_build := r.genome, analysis := "Standard",
          description := "Barcoded " ++ r.lane, multiplex := some mult })

/-- `_organize_lanes`: group the flat records by `(lane, genome_build)` with
`itertools.groupby` and emit one lane dictionary per group. -/
def organize_lanes (info : List SampleRec) (barcode_ids : BarcodeIds) :
    Option (List LaneEntry) :=
  (groupby laneKey info).mapM (processGroup barcode_ids)

/-- `_get_flowcell_id`: the set (modelled as a deduplicated list) of flowcell
ids occurring in the parsed rows; an error when there is more than one. -/
def get_flowcell_id (in_file : String) (rows : List SampleRec) :
    Except String (List String) :=
  let fc_id := (rows.map (fun r => r.fc_id)).dedup
  if fc_id.length > 1 then
    .error ("There is more than one FCID in the samplesheet file: " ++ in_file)
  else
    .ok fc_id

/-- `csv2yaml` on the parsed records: build the barcode-id table from the
records and organize the lanes from the same records (the source reads the
input file twice for the two passes).  The function performs no
flowcell-consistency check. -/
def csv2yaml (records : List SampleRec) : Option (List LaneEntry) :=
  organize_lanes records (generate_barcode_ids records)

/-- A candidate sheet found by `glob.glob("*.csv")` in one of the configured
directories, with its rows already parsed by `_read_input_csv`. -/
structure SheetFile where
  name : String
  rows : List SampleRec
deriving DecidableEq

/-- One configured samplesheet directory together with the state of the file
system there: whether `os.path.exists` holds and which `*.csv` files the glob
finds, in listing order. -/
structure SheetDir where
  path : String
  present : Bool
  files : List SheetFile
deriving DecidableEq

/-- The configuration consumed by `run_has_samplesheet`:
`config.get("samplesheet_directories", [])`, an optional list of
directories. -/
structure Config where
  samplesheet_directories : Option (List SheetDir)
deriving DecidableEq

/-- Python dict assignment `d[k] = v`: overwrite in place when the key is
present, otherwise add a new entry. -/
def dictInsert (d : List (String × String)) (k v : String) :
    List (String × String) :=
  if (d.lookup k).isSome then
    d.map (fun p => if p.1 = k then (k, v) else p)
  else d ++ [(k, v)]

/-- Processing of one candidate file inside `run_has_samplesheet`:
`fc_ids = _get_flowcell_id(ss)`, then
`for fcid in fc_ids: if fcid: fcid_sheet[fcid] = os.path.join(ss_dir, ss)`. -/
def addFile (ss_dir : String) (d : List (String × String)) (f : SheetFile) :
    Except String (List (String × String)) := do
  let fc_ids ← get_flowcell_id f.name f.rows
  pure (fc_ids.foldl
    (fun d fcid => if fcid ≠ "" then dictInsert d fcid (ss_dir ++ "/" ++ f.name) else d)
    d)

/-- Processing of one configured directory inside `run_has_samplesheet`:
skipped when `os.path.exists` fails, otherwise every globbed `*.csv` file is
added to the index. -/
def addDir (d : List (String × String)) (dir : SheetDir) :
    Except String (List (String × String)) :=
  if dir.present then dir.files.foldlM (addFile dir.path) d else pure d

/-- The `fcid_sheet` index built by the scanning loop of
`run_has_samplesheet`. -/
def build_fcid_sheet (dirs : List SheetDir) :
    Except String (List (String × String)) :=
  dirs.foldlM addDir []

/-- The inner `j2len` loop of `difflib.SequenceMatcher.find_longest_match`
for one position `i` of `a`: scan the positions `j` of the window of `b`
where `b[j] == a[i]` in ascending order, extend runs recorded in the previous
map `j2len`, and keep the best block found so far. -/
def flmInner (ai : Char) (b : Array Char) (blo bhi i : Nat)
    (j2len : Nat → Nat) (best : Nat × Nat × Nat) :
    (Nat → Nat) × (Nat × Nat × Nat) :=
  (List.range' blo (bhi - blo)).foldl
    (fun st j =>
      if b.getD j default = ai then
        let k := (if j = 0 then 0 else j2len (j - 1)) + 1
        ((fun m => if m = j then k else st.1 m),
         if k > st.2.2.2 then (i + 1 - k, j + 1 - k, k) else st.2)
      else st)
    ((fun _ => 0), best)

/-- `difflib.SequenceMatcher.find_longest_match` (no junk: with the default
`isjunk=None` and sequences shorter than 200 elements the junk sets are
empty, so the popularity heuristic and the junk-extension loops are inert):
the longest matching block of `a[alo:ahi]` and `b[blo:bhi]`, earliest in `a`
then earliest in `b`, returned as `(i, j, size)`. -/
def find_longest_match (a b : Array Char) (alo ahi blo bhi : Nat) :
    Nat × Nat × Nat :=
  ((List.range' alo (ahi - alo)).foldl
    (fun st i => flmInner (a.getD i default) b blo bhi i st.1 st.2)
    ((fun _ => 0), (alo, blo, 0))).2

/-- Total size of the blocks `difflib.SequenceMatcher.get_matching_blocks`
collects, written as the recursion its work queue unfolds to.  `fuel` bounds
the recursion depth; every recursive call shrinks the `a`-window by at least
one position, so `a.size + 1` at the top level never runs out. -/
def matchingSizeAux (a b : Array Char) : Nat → Nat → Nat → Nat → Nat → Nat
  | 0, _, _, _, _ => 0
  | fuel + 1, alo, ahi, blo, bhi =>
    match find_longest_match a b alo ahi blo bhi with
    | (i, j, k) =>
      if k = 0 then 0
      else k + matchingSizeAux a b fuel alo i blo j
             + matchingSizeAux a b fuel (i + k) ahi (j + k) bhi

/-- Total matched size over the whole sequences. -/
def matchingSize (a b : Array Char) : Nat :=
  matchingSizeAux a b (a.size + 1) 0 a.size 0 b.size

/-- `difflib.SequenceMatcher.ratio` for `a` against `b`, as the exact
rational `2 * M / T` (`M` total matched size, `T` total length; `1` when both
sequences are empty).  The Python source computes the same quotient in
floating point. -/
def simScore (a b : String) : ℚ :=
  let t := a.data.length + b.data.length
  if t = 0 then 1
  else 2 * (matchingSize a.data.toArray b.data.toArray : ℚ) / (t : ℚ)

/-- The order `heapq.nlargest` uses on the `(score, string)` pairs built by
`difflib.get_close_matches`: lexicographic on the pair, larger first. -/
def scoreGe (x y : ℚ × String) : Bool :=
  decide (y.1 < x.1 ∨ (x.1 = y.1 ∧ y.2 ≤ x.2))

/-- Insert into a list sorted in descending `scoreGe` order. -/
def insertDesc (x : ℚ × String) : List (ℚ × String) → List (ℚ × String)
  | [] => [x]
  | y :: ys => if scoreGe x y then x :: y :: ys else y :: insertDesc x ys

/-- Sort in descending `scoreGe` order (insertion sort). -/
def sortDesc : List (ℚ × String) → List (ℚ × String)
  | [] => []
  | x :: xs => insertDesc x (sortDesc xs)

/-- `difflib.get_close_matches`: keep the possibilities whose similarity to
`word` reaches `cutoff` (the quick-ratio pre-filters of the source are upper
bounds of `ratio` and do not change the accepted set), then return the best
`n` of them, best scores first — `heapq.nlargest(n, result)` is specified as
`sorted(result, reverse=True)[:n]`, modelled here by a descending sort. -/
def get_close_matches (word : String) (possibilities : List String)
    (n : Nat) (cutoff : ℚ) : List String :=
  let result := possibilities.filterMap (fun x =>
    if cutoff ≤ simScore x word then some (simScore x word, x) else none)
  ((sortDesc result).take n).map (fun p => p.2)

/-- `run_has_samplesheet`, over the explicit directory environment carried by
`config`; `fc_name` is the flowcell name obtained from `get_flowcell_info`.
The keys of the Python dict `fcid_sheet` are passed to
`difflib.get_close_matches` with `n = 1` and the default cutoff `0.6`; a
returned candidate is looked up in the dict (`has_key`) and its path
returned, otherwise the result is `None`. -/
def run_has_samplesheet (fc_name : String) (config : Config) :
    Except String (Option String) := do
  let fcid_sheet ← build_fcid_sheet (config.samplesheet_directories.getD [])
  match get_close_matches fc_name (fcid_sheet.map (fun p => p.1)) 1 (3 / 5) with
  | [] => pure none
  | p :: _ =>
    match fcid_sheet.lookup p with
    | some path => pure (some path)
    | none => pure none

/-! ### Helper lemmas about `mapM` in the `Option` monad -/

theorem mapM_option_forall₂ {α β : Type} (f : α → Option β) :
    ∀ (l : List α) (l' : List β), l.mapM f = some l' →
      List.Forall₂ (fun a b => f a = some b) l l' := by
  intro l
  induction l with
  | nil =>
    intro l' h
    simp only [List.mapM_nil] at h
    cases h
    exact List.Forall₂.nil
  | cons a as ih =>
    intro l' h
    simp only [List.mapM_cons] at h
    cases hfa : f a with
    | none => rw [hfa] at h; simp at h
    | some b =>
      rw [hfa] at h
      cases hmm : as.mapM f with
      | none => rw [hmm] at h; simp at h
      | some bs =>
        rw [hmm] at h
        simp only [Option.bind_some, Option.pure_def, Option.some.injEq] at h
        cases h
        exact List.Forall₂.cons hfa (ih bs hmm)

theorem mapM_option_isSome {α β : Type} (f : α → Option β) :
    ∀ (l : List α), (∀ a ∈ l, (f a).isSome) → ∃ l', l.mapM f = some l' := by
  intro l
  induction l with
  | nil => intro _; exact ⟨[], rfl⟩
  | cons a as ih =>
    intro h
    obtain ⟨b, hb⟩ := Option.isSome_iff_exists.mp (h a (by simp))
    obtain ⟨bs, hbs⟩ := ih (fun x hx => h x (by simp [hx]))
    exact ⟨b :: bs, by rw [List.mapM_cons, hb, hbs]; rfl⟩

/-! ### Lemmas about `groupby` -/

section Groupby

variable {α κ : Type} [DecidableEq κ] (key : α → κ)

theorem groupbyCons_ne_nil (x : α) (G : List (List α))
    (hne : ∀ g ∈ G, g ≠ []) : ∀ g ∈ groupbyCons key x G, g ≠ [] := by
  match G with
  | [] =>
    intro g hg
    simp only [groupbyCons, List.mem_singleton] at hg
    simp [hg]
  | [] :: gs => exact absurd rfl (hne [] (by simp))
  | (y :: g') :: gs =>
    intro g hg
    by_cases h : key x = key y
    · simp only [groupbyCons, if_pos h, List.mem_cons] at hg
      rcases hg with rfl | hg
      · simp
      · exact hne g (List.mem_cons_of_mem _ hg)
    · simp only [groupbyCons, if_neg h, List.mem_cons] at hg
      rcases hg with rfl | rfl | hg
      · simp
      · simp
      · exact hne g (List.mem_cons_of_mem _ hg)

theorem groupbyCons_join (x : α) (G : List (List α))
    (hne : ∀ g ∈ G, g ≠ []) : (groupbyCons key x G).flatten = x :: G.flatten := by
  match G with
  | [] => simp [groupbyCons]
  | [] :: gs => exact absurd rfl (hne [] (by simp))
  | (y :: g') :: gs =>
    by_cases h : key x = key y <;> simp [groupbyCons, h]

theorem groupbyCons_const (x : α) (G : List (List α))
    (hconst : ∀ g ∈ G, ∀ a ∈ g, ∀ b ∈ g, key a = key b) :
    ∀ g ∈ groupbyCons key x G, ∀ a ∈ g, ∀ b ∈ g, key a = key b := by
  match G with
  | [] =>
    intro g hg a ha b hb
    simp only [groupbyCons, List.mem_singleton] at hg
    subst hg
    simp only [List.mem_singleton] at ha hb
    rw [ha, hb]
  | [] :: gs =>
    intro g hg a ha b hb
    simp only [groupbyCons, List.mem_cons] at hg
    rcases hg with rfl | hg
    · simp only [List.mem_singleton] at ha hb
      rw [ha, hb]
    · exact hconst g (List.mem_cons_of_mem _ hg) a ha b hb
  | (y :: g') :: gs =>
    intro g hg a ha b hb
    have hmem : ∀ c ∈ (y :: g' : List α), key c = key y := fun c hc =>
      hconst (y :: g') (by simp) c hc y (by simp)
    by_cases h : key x = key y
    · simp only [groupbyCons, if_pos h, List.mem_cons] at hg
      rcases hg with rfl | hg
      · have key_eq : ∀ c ∈ (x :: y :: g' : List α), key c = key y := by
          intro c hc
          rcases List.mem_cons.mp hc with rfl | hc
          · exact h
          · exact hmem c hc
        rw [key_eq a ha, key_eq b hb]
      · exact hconst g (List.mem_cons_of_mem _ hg) a ha b hb
    · simp only [groupbyCons, if_neg h, List.mem_cons] at hg
      rcases hg with rfl | rfl | hg
      · simp only [List.mem_singleton] at ha hb
        rw [ha, hb]
      · rw [hmem a ha, hmem b hb]
      · exact hconst g (List.mem_cons_of_mem _ hg) a ha b hb

theorem groupbyCons_chain (x : α) (G : List (List α))
    (hne : ∀ g ∈ G, g ≠ [])
    (hch : List.Chain' (fun g h => g.head?.map key ≠ h.head?.map key) G) :
    List.Chain' (fun g h => g.head?.map key ≠ h.head?.map key)
      (groupbyCons key x G) := by
  match G with
  | [] => simp [groupbyCons]
  | [] :: gs => exact absurd rfl (hne [] (by simp))
  | (y :: g') :: gs =>
    rw [List.chain'_cons'] at hch
    by_cases h : key x = key y
    · simp only [groupbyCons, if_pos h]
      rw [List.chain'_cons']
      refine ⟨fun z hz => ?_, hch.2⟩
      have := hch.1 z hz
      simpa [h] using this
    · simp only [groupbyCons, if_neg h]
      rw [List.chain'_cons']
      refine ⟨fun z hz => ?_, List.chain'_cons'.mpr hch⟩
      cases gshape : (((y :: g') :: gs : List (List α))).head? with
      | none => rw [gshape] at hz; cases hz
      | some w =>
        rw [gshape] at hz
        simp only [Option.mem_def, Option.some.injEq] at hz
        subst hz
        simp only [List.head?_cons, Option.some.injEq] at gshape
        subst gshape
        simpa using h

theorem groupby_ne_nil (l : List α) : ∀ g ∈ groupby key l, g ≠ [] := by
  induction l with
  | nil => simp [groupby]
  | cons x xs ih => exact groupbyCons_ne_nil key x _ ih

theorem groupby_join (l : List α) : (groupby key l).flatten = l := by
  induction l with
  | nil => simp [groupby]
  | cons x xs ih =>
    show (groupbyCons key x (groupby key xs)).flatten = x :: xs
    rw [groupbyCons_join key x _ (groupby_ne_nil key xs), ih]

theorem groupby_const (l : List α) :
    ∀ g ∈ groupby key l, ∀ a ∈ g, ∀ b ∈ g, key a = key b := by
  induction l with
  | nil => simp [groupby]
  | cons x xs ih => exact groupbyCons_const key x _ ih

theorem groupby_chain (l : List α) :
    List.Chain' (fun g h => g.head?.map key ≠ h.head?.map key)
      (groupby key l) := by
  induction l with
  | nil => simp [groupby]
  | cons x xs ih => exact groupbyCons_chain key x _ (groupby_ne_nil key xs) ih

end Groupby

/-! ### Lemmas about `generate_barcode_ids` -/

theorem strLe_trans (a b c : String) : strLe a b → strLe b c → strLe a c := by
  simp only [strLe, decide_eq_true_eq]
  exact le_trans

theorem strLe_total (a b : String) : strLe a b || strLe b a := by
  simp only [strLe, Bool.or_eq_true, decide_eq_true_eq]
  exact le_total a b

theorem empty_str_le (s : String) : ("" : String) ≤ s := by
  rw [String.le_iff_toList_le]
  simp

theorem sortedBarcodes_sorted (info : List SampleRec) :
    (sortedBarcodes info).Pairwise (· ≤ ·) :=
  (List.sorted_mergeSort strLe_trans strLe_total _).imp
    (fun h => by simpa [strLe, decide_eq_true_eq] using h)

theorem sortedBarcodes_nodup (info : List SampleRec) :
    (sortedBarcodes info).Nodup :=
  ((List.mergeSort_perm _ strLe).nodup_iff).mpr (List.nodup_dedup _)

theorem sortedBarcodes_mem (info : List SampleRec) (s : String) :
    s ∈ sortedBarcodes info ↔ s ∈ info.map (fun r => r.barcode) := by
  unfold sortedBarcodes
  rw [List.mem_mergeSort, List.mem_dedup]

theorem sortedBarcodes_pairwise_lt (info : List SampleRec) :
    (sortedBarcodes info).Pairwise (· < ·) :=
  ((sortedBarcodes_sorted info).and (sortedBarcodes_nodup info)).imp
    (fun h => lt_of_le_of_ne h.1 h.2)

theorem sorted_mem_empty_head (S : List String) (hs : S.Pairwise (· ≤ ·))
    (hm : ("" : String) ∈ S) : ∃ t, S = "" :: t := by
  match S with
  | [] => cases hm
  | a :: t =>
    rcases List.mem_cons.mp hm with h | h
    · exact ⟨t, by rw [h]⟩
    · have ha : a ≤ "" := (List.pairwise_cons.mp hs).1 "" h
      have hae : a = "" := le_antisymm ha (empty_str_le a)
      exact ⟨t, by rw [hae]⟩

theorem generate_barcode_ids_eq (info : List SampleRec) :
    generate_barcode_ids info
      = ((sortedBarcodes info).enumFrom 0).map
          (fun p => (p.2, ("SampleSheet", p.1 + 1))) := rfl

theorem barcodeIds_enum_ids : ∀ (l : List String) (n : Nat),
    ((l.enumFrom n).map (fun p => (p.2, ("SampleSheet", p.1 + 1)))).map
        (fun q => q.2.2) = List.range' (n + 1) l.length := by
  intro l
  induction l with
  | nil => intro n; rfl
  | cons a l ih => intro n; simp [List.range'_succ, ih (n + 1)]

theorem barcodeIds_enum_keys : ∀ (l : List String) (n : Nat),
    ((l.enumFrom n).map (fun p => (p.2, ("SampleSheet", p.1 + 1)))).map
        (fun q => q.1) = l := by
  intro l
  induction l with
  | nil => intro n; rfl
  | cons a l ih => intro n; simp [ih (n + 1)]

theorem barcodeIds_enum_lookup : ∀ (l : List String) (n : Nat) (s : String),
    s ∈ l →
    ∃ i, ((l.enumFrom n).map (fun p => (p.2, ("SampleSheet", p.1 + 1)))).lookup s
      = some ("SampleSheet", i) := by
  intro l
  induction l with
  | nil => intro n s h; cases h
  | cons a l ih =>
    intro n s h
    by_cases hs : s = a
    · subst hs
      exact ⟨n + 1, by simp [List.lookup]⟩
    · rcases List.mem_cons.mp h with rfl | h2
      · exact absurd rfl hs
      · obtain ⟨i, hi⟩ := ih (n + 1) s h2
        have hba : (s == a) = false := beq_eq_false_iff_ne.mpr hs
        exact ⟨i, by simpa [List.lookup, hba] using hi⟩

/-- Concrete records used by witnesses: three rows over two lanes, all with
non-empty barcodes. -/
def wRecs : List SampleRec :=
  [⟨"FC1", "1", "S1", "hg19", "TT"⟩, ⟨"FC1", "1", "S2", "hg19", "AA"⟩,
   ⟨"FC1", "2", "S3", "hg19", "AA"⟩]

/-- Concrete records used by witnesses: one row with an empty barcode. -/
def wRecsEmpty : List SampleRec :=
  [⟨"FC1", "1", "S1", "hg19", ""⟩, ⟨"FC1", "1", "S2", "hg19", "AA"⟩]

/-- C3: for an input whose records all carry a non-empty barcode sequence and
which contains `N` distinct barcode sequences, `_generate_barcode_ids`
assigns exactly the indices `1, ..., N`, in ascending lexicographic order of
the sequences, each paired with the constant barcode type `"SampleSheet"`. -/
theorem generate_barcode_ids_dense (info : List SampleRec)
    (_hne : ∀ r ∈ info, r.barcode ≠ "") :
    ((generate_barcode_ids info).map (fun q => q.2.2)
        = List.range' 1 ((info.map (fun r => r.barcode)).dedup).length)
    ∧ ((generate_barcode_ids info).map (fun q => q.1)).Pairwise (· < ·)
    ∧ (∀ s : String, s ∈ (generate_barcode_ids info).map (fun q => q.1)
        ↔ s ∈ info.map (fun r => r.barcode))
    ∧ ∀ q ∈ generate_barcode_ids info, q.2.1 = "SampleSheet" := by
  rw [generate_barcode_ids_eq]
  refine ⟨?_, ?_, ?_, ?_⟩
  · rw [barcodeIds_enum_ids]
    simp [sortedBarcodes]
  · rw [barcodeIds_enum_keys]
    exact sortedBarcodes_pairwise_lt info
  · intro s
    rw [barcodeIds_enum_keys]
    exact sortedBarcodes_mem info s
  · intro q hq
    obtain ⟨p, _, rfl⟩ := List.mem_map.mp hq
    rfl

/-- Witness for `generate_barcode_ids_dense` at a concrete input. -/
theorem generate_barcode_ids_dense_witness :
    (∀ r ∈ wRecs, r.barcode ≠ "")
    ∧ (generate_barcode_ids wRecs).map (fun q => q.2.2)
      = List.range' 1 ((wRecs.map (fun r => r.barcode)).dedup).length :=
  ⟨by decide, (generate_barcode_ids_dense wRecs (by decide)).1⟩

/-- C4: the assignment covers every distinct barcode value seen in the
input, the empty string included; when some record has an empty barcode
field, the empty string (which sorts before every non-empty sequence)
receives index 1. -/
theorem generate_barcode_ids_includes_empty (info : List SampleRec) :
    (∀ r ∈ info, ∃ i, (generate_barcode_ids info).lookup r.barcode
        = some ("SampleSheet", i))
    ∧ ((∃ r ∈ info, r.barcode = "") →
        (generate_barcode_ids info).lookup "" = some ("SampleSheet", 1)) := by
  constructor
  · intro r hr
    have hm : r.barcode ∈ sortedBarcodes info :=
      (sortedBarcodes_mem info r.barcode).mpr
        (List.mem_map_of_mem (fun r => r.barcode) hr)
    rw [generate_barcode_ids_eq]
    exact barcodeIds_enum_lookup (sortedBarcodes info) 0 r.barcode hm
  · rintro ⟨r, hr, hb⟩
    have hm0 : r.barcode ∈ info.map (fun r => r.barcode) :=
      List.mem_map_of_mem (fun r => r.barcode) hr
    rw [hb] at hm0
    have hm : ("" : String) ∈ sortedBarcodes info :=
      (sortedBarcodes_mem info "").mpr hm0
    obtain ⟨t, ht⟩ := sorted_mem_empty_head _ (sortedBarcodes_sorted info) hm
    rw [generate_barcode_ids_eq, ht]
    simp [List.lookup]

/-- Witness for `generate_barcode_ids_includes_empty` at a concrete input
containing an empty barcode. -/
theorem generate_barcode_ids_includes_empty_witness :
    (∃ r ∈ wRecsEmpty, r.barcode = "")
    ∧ (generate_barcode_ids wRecsEmpty).lookup "" = some ("SampleSheet", 1) :=
  ⟨by decide, (generate_barcode_ids_includes_empty wRecsEmpty).2 (by decide)⟩

/-- C5: the assignment depends only on the set of distinct barcode
sequences: two inputs with equal barcode-value sets, regardless of record
order or multiplicity, receive identical tables. -/
theorem generate_barcode_ids_set_det (info₁ info₂ : List SampleRec)
    (h : (info₁.map (fun r => r.barcode)).toFinset
        = (info₂.map (fun r => r.barcode)).toFinset) :
    generate_barcode_ids info₁ = generate_barcode_ids info₂ := by
  suffices hs : sortedBarcodes info₁ = sortedBarcodes info₂ by
    rw [generate_barcode_ids_eq, generate_barcode_ids_eq, hs]
  have hperm : List.Perm (info₁.map (fun r => r.barcode)).dedup
      (info₂.map (fun r => r.barcode)).dedup :=
    List.toFinset_eq_iff_perm_dedup.mp h
  exact List.eq_of_perm_of_sorted
    (((List.mergeSort_perm _ strLe).trans hperm).trans
      (List.mergeSort_perm _ strLe).symm)
    (sortedBarcodes_sorted info₁) (sortedBarcodes_sorted info₂)

/-- Concrete records for the `generate_barcode_ids_set_det` witness: same
barcode set as `wPermB`, different order and multiplicities. -/
def wPermA : List SampleRec :=
  [⟨"FC1", "1", "S1", "hg19", "AA"⟩, ⟨"FC1", "1", "S2", "hg19", "TT"⟩]

/-- Concrete records for the `generate_barcode_ids_set_det` witness: same
barcode set as `wPermA`, different order and multiplicities. -/
def wPermB : List SampleRec :=
  [⟨"FC1", "2", "S9", "mm9", "TT"⟩, ⟨"FC1", "2", "S8", "mm9", "AA"⟩,
   ⟨"FC1", "3", "S7", "mm9", "TT"⟩]

/-- Witness for `generate_barcode_ids_set_det` at concrete inputs. -/
theorem generate_barcode_ids_set_det_witness :
    ((wPermA.map (fun r => r.barcode)).toFinset
        = (wPermB.map (fun r => r.barcode)).toFinset)
    ∧ generate_barcode_ids wPermA = generate_barcode_ids wPermB :=
  ⟨by decide, generate_barcode_ids_set_det wPermA wPermB (by decide)⟩

/-! ### Lemmas about `_organize_lanes` -/

theorem forall₂_imp_mem {α β : Type} {R S : α → β → Prop} :
    ∀ {l₁ : List α} {l₂ : List β}, List.Forall₂ R l₁ l₂ →
      (∀ a ∈ l₁, ∀ b ∈ l₂, R a b → S a b) → List.Forall₂ S l₁ l₂ := by
  intro l₁ l₂ h
  induction h with
  | nil => intro _; exact List.Forall₂.nil
  | @cons a b as bs hab _ ih =>
    intro hm
    exact List.Forall₂.cons (hm a (by simp) b (by simp) hab)
      (ih (fun x hx y hy hr => hm x (by simp [hx]) y (by simp [hy]) hr))

theorem processGroup_lane (barcode_ids : BarcodeIds) (g : List SampleRec)
    (hc : ∀ a ∈ g, ∀ b ∈ g, laneKey a = laneKey b) (e : LaneEntry)
    (h : processGroup barcode_ids g = some e) :
    ∀ x ∈ g, e.lane = x.lane ∧ e.genome_build = x.genome := by
  match g with
  | [] => cases h
  | r :: rest =>
    intro x hx
    have hk : laneKey x = laneKey r := hc x hx r (by simp)
    have hlane : x.lane = r.lane := congrArg Prod.fst hk
    have hgen : x.genome = r.genome := congrArg Prod.snd hk
    simp only [processGroup] at h
    by_cases hrest : rest.isEmpty
    · rw [if_pos hrest] at h
      cases h
      exact ⟨hlane.symm, hgen.symm⟩
    · rw [if_neg hrest] at h
      obtain ⟨mult, _, rfl⟩ := Option.map_eq_some'.mp h
      exact ⟨hlane.symm, hgen.symm⟩

/-- C6: `_organize_lanes` partitions the record stream into maximal
contiguous runs sharing the same `(lane, genome_build)` key — so records
with an equal key that are not contiguous land in separate runs — and, when
its barcode lookups succeed, emits exactly one `LaneEntry` per run, in
stream order, carrying the run's lane and genome build. -/
theorem organize_lanes_runs (info : List SampleRec)
    (barcode_ids : BarcodeIds) :
    (groupby laneKey info).flatten = info
    ∧ (∀ g ∈ groupby laneKey info, g ≠ [])
    ∧ (∀ g ∈ groupby laneKey info, ∀ a ∈ g, ∀ b ∈ g, laneKey a = laneKey b)
    ∧ List.Chain' (fun g h => g.head?.map laneKey ≠ h.head?.map laneKey)
        (groupby laneKey info)
    ∧ ∀ entries, organize_lanes info barcode_ids = some entries →
        List.Forall₂
          (fun g e => ∀ x ∈ g, e.lane = x.lane ∧ e.genome_build = x.genome)
          (groupby laneKey info) entries := by
  refine ⟨groupby_join laneKey info, groupby_ne_nil laneKey info,
    groupby_const laneKey info, groupby_chain laneKey info, ?_⟩
  intro entries h
  have h2 := mapM_option_forall₂ (processGroup barcode_ids) _ _ h
  exact forall₂_imp_mem h2
    (fun g hg e _ hge => processGroup_lane barcode_ids g
      (groupby_const laneKey info g hg) e hge)

/-- The barcode table used by the `_organize_lanes` witnesses. -/
def wBids : BarcodeIds := [("AA", ("SampleSheet", 1)), ("TT", ("SampleSheet", 2))]

/-- The lane entries `_organize_lanes` produces from `wRecs` and `wBids`. -/
def wEntries : List LaneEntry :=
  [{ lane := "1", genome_build := "hg19", analysis := "Standard",
     description := "Barcoded 1",
     multiplex := some
       [{ barcode_type := "SampleSheet", barcode_id := 2, sequence := "TT",
          name := "S1" },
        { barcode_type := "SampleSheet", barcode_id := 1, sequence := "AA",
          name := "S2" }] },
   { lane := "2", genome_build := "hg19", analysis := "Standard",
     description := "2", multiplex := none }]

/-- Witness for `organize_lanes_runs` at a concrete input. -/
theorem organize_lanes_runs_witness :
    List.Forall₂
      (fun g e => ∀ x ∈ g, e.lane = x.lane ∧ e.genome_build = x.genome)
      (groupby laneKey wRecs) wEntries :=
  (organize_lanes_runs wRecs wBids).2.2.2.2 wEntries (by decide)

theorem processGroup_spec (barcode_ids : BarcodeIds) (g : List SampleRec)
    (e : LaneEntry) (h : processGroup barcode_ids g = some e) :
    (g.length = 1 → e.multiplex = none)
    ∧ (1 < g.length →
        e.description = "Barcoded " ++ e.lane
        ∧ ∃ mult, e.multiplex = some mult
          ∧ List.Forall₂ (fun r m =>
              barcode_ids.lookup r.barcode
                  = some (m.barcode_type, m.barcode_id)
              ∧ m.sequence = r.barcode ∧ m.name = r.sample_id) g mult) := by
  match g with
  | [] => cases h
  | r :: rest =>
    simp only [processGroup] at h
    by_cases hrest : rest.isEmpty
    · have hr0 : rest = [] := List.isEmpty_iff.mp hrest
      subst hr0
      rw [if_pos hrest] at h
      cases h
      refine ⟨fun _ => rfl, fun hlen => absurd hlen (by simp)⟩
    · rw [if_neg hrest] at h
      obtain ⟨mult, hmm, rfl⟩ := Option.map_eq_some'.mp h
      have hf := mapM_option_forall₂ _ _ _ hmm
      constructor
      · intro hlen
        exfalso
        apply hrest
        have hr0 : rest.length = 0 := by simpa using hlen
        simp [List.length_eq_zero.mp hr0]
      · intro _
        refine ⟨rfl, mult, rfl, hf.imp ?_⟩
        intro a b hab
        obtain ⟨bt, hbt, rfl⟩ := Option.map_eq_some'.mp hab
        exact ⟨by simpa using hbt, rfl, rfl⟩

/-- C7: when `_organize_lanes` succeeds, every emitted lane entry for a
singleton group carries no multiplex field, while a group of more than one
record gets description `"Barcoded " + lane` and a multiplex list with
exactly one entry per record of the group, in group order, each carrying the
type and id looked up in the barcode table for the record's sequence, the
sequence itself, and the record's sample id as name. -/
theorem organize_lanes_multiplex (info : List SampleRec)
    (barcode_ids : BarcodeIds) (entries : List LaneEntry)
    (h : organize_lanes info barcode_ids = some entries) :
    List.Forall₂ (fun g e =>
        (g.length = 1 → e.multiplex = none)
        ∧ (1 < g.length →
            e.description = "Barcoded " ++ e.lane
            ∧ ∃ mult, e.multiplex = some mult
              ∧ List.Forall₂ (fun r m =>
                  barcode_ids.lookup r.barcode
                      = some (m.barcode_type, m.barcode_id)
                  ∧ m.sequence = r.barcode ∧ m.name = r.sample_id) g mult))
      (groupby laneKey info) entries :=
  (mapM_option_forall₂ (processGroup barcode_ids) _ _ h).imp
    (fun _ _ hge => processGroup_spec barcode_ids _ _ hge)

/-- Witness for `organize_lanes_multiplex` at a concrete input. -/
theorem organize_lanes_multiplex_witness :
    List.Forall₂ (fun g e =>
        (g.length = 1 → e.multiplex = none)
        ∧ (1 < g.length →
            e.description = "Barcoded " ++ e.lane
            ∧ ∃ mult, e.multiplex = some mult
              ∧ List.Forall₂ (fun r m =>
                  wBids.lookup r.barcode = some (m.barcode_type, m.barcode_id)
                  ∧ m.sequence = r.barcode ∧ m.name = r.sample_id) g mult))
      (groupby laneKey wRecs) wEntries :=
  organize_lanes_multiplex wRecs wBids wEntries (by decide)

/-- C1 (code evaluated at the failing input): on a single-record lane group
whose sample_id differs from its lane, `_organize_lanes` sets the entry's
description to the record's lane — the source reads `info[0][1]`, the lane
field — and not to its sample_id `"MYSAMPLE"`. -/
theorem organize_lanes_singleton_description :
    organize_lanes [⟨"FC1", "7", "MYSAMPLE", "hg19", ""⟩] []
      = some [{ lane := "7", genome_build := "hg19", analysis := "Standard",
                description := "7", multiplex := none }]
    ∧ ("7" : String) ≠ "MYSAMPLE" := by decide

/-! ### Totality of conversion, and error propagation in the locator -/

theorem except_error_bind {ε α β : Type} (e : ε) (k : α → Except ε β) :
    (Except.error e >>= k) = Except.error e := rfl

theorem except_ok_bind {ε α β : Type} (a : α) (k : α → Except ε β) :
    (Except.ok a >>= k) = k a := rfl

theorem lookup_barcode_isSome (info : List SampleRec) (r : SampleRec)
    (hr : r ∈ info) :
    ((generate_barcode_ids info).lookup r.barcode).isSome := by
  have hm : r.barcode ∈ sortedBarcodes info :=
    (sortedBarcodes_mem info r.barcode).mpr
      (List.mem_map_of_mem (fun r => r.barcode) hr)
  rw [generate_barcode_ids_eq]
  obtain ⟨i, hi⟩ := barcodeIds_enum_lookup (sortedBarcodes info) 0 r.barcode hm
  simp [hi]

theorem csv2yaml_total (records : List SampleRec) :
    ∃ lanes, csv2yaml records = some lanes := by
  unfold csv2yaml organize_lanes
  apply mapM_option_isSome
  intro g hg
  have hmem : ∀ x ∈ g, x ∈ records := by
    intro x hx
    have : x ∈ (groupby laneKey records).flatten := List.mem_flatten.mpr ⟨g, hg, hx⟩
    rwa [groupby_join laneKey records] at this
  have hne := groupby_ne_nil laneKey records g hg
  match g, hne, hmem with
  | r :: rest, _, hmem =>
    simp only [processGroup]
    by_cases hrest : rest.isEmpty
    · simp [hrest]
    · rw [if_neg hrest]
      have hsome : ∀ x ∈ r :: rest,
          (((generate_barcode_ids records).lookup x.barcode).map (fun bt =>
            ({ barcode_type := bt.1, barcode_id := bt.2, sequence := x.barcode,
               name := x.sample_id } : MultiplexEntry))).isSome := by
        intro x hx
        have := lookup_barcode_isSome records x (hmem x hx)
        simpa using this
      obtain ⟨mult, hmult⟩ := mapM_option_isSome _ _ hsome
      rw [hmult]
      simp

theorem addFile_multi_error (ss_dir : String) (d : List (String × String))
    (f : SheetFile)
    (hm : 1 < ((f.rows.map (fun r => r.fc_id)).dedup).length) :
    ∃ msg, addFile ss_dir d f = .error msg := by
  refine ⟨"There is more than one FCID in the samplesheet file: " ++ f.name, ?_⟩
  unfold addFile get_flowcell_id
  simp only [gt_iff_lt, if_pos hm]
  rfl

theorem filesFold_multi_error (ss_dir : String) :
    ∀ (files : List SheetFile),
      (∃ f ∈ files, 1 < ((f.rows.map (fun r => r.fc_id)).dedup).length) →
      ∀ d, ∃ msg, files.foldlM (addFile ss_dir) d = .error msg := by
  intro files
  induction files with
  | nil => rintro ⟨f, hf, _⟩ d; cases hf
  | cons f fs ih =>
    rintro ⟨f', hf', hm⟩ d
    rcases List.mem_cons.mp hf' with rfl | hmem
    · obtain ⟨msg, hmsg⟩ := addFile_multi_error ss_dir d f' hm
      exact ⟨msg, by rw [List.foldlM_cons, hmsg, except_error_bind]⟩
    · cases haf : addFile ss_dir d f with
      | error msg => exact ⟨msg, by rw [List.foldlM_cons, haf, except_error_bind]⟩
      | ok d' =>
        obtain ⟨msg, hmsg⟩ := ih ⟨f', hmem, hm⟩ d'
        exact ⟨msg, by rw [List.foldlM_cons, haf, except_ok_bind, hmsg]⟩

theorem dirsFold_multi_error :
    ∀ (dirs : List SheetDir),
      (∃ dd ∈ dirs, dd.present = true
        ∧ ∃ f ∈ dd.files, 1 < ((f.rows.map (fun r => r.fc_id)).dedup).length) →
      ∀ d, ∃ msg, dirs.foldlM addDir d = .error msg := by
  intro dirs
  induction dirs with
  | nil => rintro ⟨dd, hdd, _⟩ d; cases hdd
  | cons dd₀ ds ih =>
    rintro ⟨dd, hdd, hpres, hf⟩ d
    rcases List.mem_cons.mp hdd with rfl | hmem
    · obtain ⟨msg, hmsg⟩ := filesFold_multi_error dd.path dd.files hf d
      refine ⟨msg, ?_⟩
      rw [List.foldlM_cons]
      unfold addDir
      rw [if_pos hpres, hmsg, except_error_bind]
    · cases had : addDir d dd₀ with
      | error msg => exact ⟨msg, by rw [List.foldlM_cons, had, except_error_bind]⟩
      | ok d' =>
        obtain ⟨msg, hmsg⟩ := ih ⟨dd, hmem, hpres, hf⟩ d'
        exact ⟨msg, by rw [List.foldlM_cons, had, except_ok_bind, hmsg]⟩

/-- C2 (amended): the multi-flowcell input-consistency error is raised by
the lookup path only: when some scanned candidate sheet carries more than
one distinct flowcell id, `run_has_samplesheet` aborts with the error, while
`csv2yaml` performs no flowcell-consistency check and converts every record
list — multi-flowcell inputs included — producing output. -/
theorem fcid_error_lookup_only (fc_name : String) (config : Config)
    (h : ∃ dd ∈ config.samplesheet_directories.getD [], dd.present = true
        ∧ ∃ f ∈ dd.files, 1 < ((f.rows.map (fun r => r.fc_id)).dedup).length) :
    (∃ msg, run_has_samplesheet fc_name config = .error msg)
    ∧ ∀ records : List SampleRec, ∃ lanes, csv2yaml records = some lanes := by
  refine ⟨?_, csv2yaml_total⟩
  obtain ⟨msg, hmsg⟩ :=
    dirsFold_multi_error (config.samplesheet_directories.getD []) h []
  refine ⟨msg, ?_⟩
  unfold run_has_samplesheet
  have hb : build_fcid_sheet (config.samplesheet_directories.getD [])
      = .error msg := hmsg
  rw [hb, except_error_bind]

/-- Concrete two-flowcell input for the C2 counterexample and witness. -/
def wTwoFc : List SampleRec :=
  [⟨"FC1", "1", "S1", "hg19", "AA"⟩, ⟨"FC2", "1", "S2", "hg19", "CC"⟩]

/-- A present directory whose single candidate sheet has two flowcell
ids. -/
def wBadDir : SheetDir :=
  { path := "sheets", present := true,
    files := [{ name := "a.csv", rows := wTwoFc }] }

/-- C2 (counterexample): a record list carrying two distinct flowcell ids is
converted by `csv2yaml` without any error, output produced — conversion
performs no input-consistency check. -/
theorem csv2yaml_two_fcids :
    1 < ((wTwoFc.map (fun r => r.fc_id)).dedup).length
    ∧ (csv2yaml wTwoFc).isSome :=
  ⟨by decide, by obtain ⟨lanes, hl⟩ := csv2yaml_total wTwoFc; simp [hl]⟩

/-- Witness for `fcid_error_lookup_only` at a concrete configuration. -/
theorem fcid_error_lookup_only_witness :
    ∃ msg, run_has_samplesheet "FCX" ⟨some [wBadDir]⟩ = .error msg :=
  (fcid_error_lookup_only "FCX" ⟨some [wBadDir]⟩ (by decide)).1

/-! ### The candidate index and the fuzzy lookup -/

/-- C9: with no `samplesheet_directories` key, or an empty configured list
of directories, `run_has_samplesheet` builds an empty candidate index and
unconditionally returns the no-match sentinel `None`. -/
theorem run_has_samplesheet_no_dirs (fc_name : String) (config : Config)
    (h : config.samplesheet_directories = none
        ∨ config.samplesheet_directories = some []) :
    build_fcid_sheet (config.samplesheet_directories.getD []) = .ok []
    ∧ run_has_samplesheet fc_name config = .ok none := by
  obtain ⟨d⟩ := config
  rcases h with h | h <;> (simp only at h; subst h; exact ⟨rfl, rfl⟩)

/-- Witness for `run_has_samplesheet_no_dirs` at a concrete absent key. -/
theorem run_has_samplesheet_no_dirs_witness :
    run_has_samplesheet "FC123" ⟨none⟩ = .ok none :=
  (run_has_samplesheet_no_dirs "FC123" ⟨none⟩ (Or.inl rfl)).2

theorem dictInsert_keys (d : List (String × String)) (k v : String) :
    ∀ p ∈ dictInsert d k v, p.1 = k ∨ p ∈ d := by
  intro p hp
  unfold dictInsert at hp
  by_cases hl : (d.lookup k).isSome
  · rw [if_pos hl] at hp
    obtain ⟨q, hq, hpq⟩ := List.mem_map.mp hp
    by_cases hqk : q.1 = k
    · left; rw [← hpq, if_pos hqk]
    · right; rw [← hpq, if_neg hqk]; exact hq
  · rw [if_neg hl] at hp
    rcases List.mem_append.mp hp with hp | hp
    · right; exact hp
    · left; simp only [List.mem_singleton] at hp; rw [hp]

theorem foldl_dictInsert_keys (ss_dir fname : String) :
    ∀ (ids : List String) (d : List (String × String)),
      (∀ p ∈ d, p.1 ≠ "") →
      ∀ p ∈ ids.foldl (fun d fcid =>
          if fcid ≠ "" then dictInsert d fcid (ss_dir ++ "/" ++ fname) else d) d,
        p.1 ≠ "" := by
  intro ids
  induction ids with
  | nil => intro d hd; exact hd
  | cons i is ih =>
    intro d hd
    simp only [List.foldl_cons]
    apply ih
    by_cases hi : i = ""
    · rw [if_neg (not_not_intro hi)]
      exact hd
    · rw [if_pos hi]
      intro p hp
      rcases dictInsert_keys d i _ p hp with h1 | h2
      · rw [h1]; exact hi
      · exact hd p h2

theorem addFile_keys_ne_empty (ss_dir : String) (d d' : List (String × String))
    (f : SheetFile) (hd : ∀ p ∈ d, p.1 ≠ "")
    (h : addFile ss_dir d f = .ok d') : ∀ p ∈ d', p.1 ≠ "" := by
  unfold addFile at h
  cases hfc : get_flowcell_id f.name f.rows with
  | error e => rw [hfc, except_error_bind] at h; cases h
  | ok ids =>
    rw [hfc, except_ok_bind] at h
    cases h
    exact foldl_dictInsert_keys ss_dir f.name ids d hd

theorem filesFold_keys_ne_empty (ss_dir : String) :
    ∀ (files : List SheetFile) (d d' : List (String × String)),
      (∀ p ∈ d, p.1 ≠ "") →
      files.foldlM (addFile ss_dir) d = .ok d' → ∀ p ∈ d', p.1 ≠ "" := by
  intro files
  induction files with
  | nil =>
    intro d d' hd h
    rw [List.foldlM_nil] at h
    cases h
    exact hd
  | cons f fs ih =>
    intro d d' hd h
    rw [List.foldlM_cons] at h
    cases haf : addFile ss_dir d f with
    | error e => rw [haf, except_error_bind] at h; cases h
    | ok d₁ =>
      rw [haf, except_ok_bind] at h
      exact ih d₁ d' (addFile_keys_ne_empty ss_dir d d₁ f hd haf) h

theorem addDir_keys_ne_empty (d d' : List (String × String)) (dir : SheetDir)
    (hd : ∀ p ∈ d, p.1 ≠ "") (h : addDir d dir = .ok d') :
    ∀ p ∈ d', p.1 ≠ "" := by
  unfold addDir at h
  by_cases hp : dir.present
  · rw [if_pos hp] at h
    exact filesFold_keys_ne_empty dir.path dir.files d d' hd h
  · rw [if_neg hp] at h
    cases h
    exact hd

theorem dirsFold_keys_ne_empty :
    ∀ (dirs : List SheetDir) (d d' : List (String × String)),
      (∀ p ∈ d, p.1 ≠ "") → dirs.foldlM addDir d = .ok d' →
      ∀ p ∈ d', p.1 ≠ "" := by
  intro dirs
  induction dirs with
  | nil =>
    intro d d' hd h
    rw [List.foldlM_nil] at h
    cases h
    exact hd
  | cons dd ds ih =>
    intro d d' hd h
    rw [List.foldlM_cons] at h
    cases had : addDir d dd with
    | error e => rw [had, except_error_bind] at h; cases h
    | ok d₁ =>
      rw [had, except_ok_bind] at h
      exact ih d₁ d' (addDir_keys_ne_empty d d₁ dd hd had) h

theorem dedup_const_empty (l : List String) (h : ∀ x ∈ l, x = "") :
    l.dedup = [] ∨ l.dedup = [""] := by
  have hmem : ∀ x ∈ l.dedup, x = "" := fun x hx => h x (List.mem_dedup.mp hx)
  have hnd : l.dedup.Nodup := List.nodup_dedup l
  cases hd : l.dedup with
  | nil => exact Or.inl rfl
  | cons a t =>
    right
    rw [hd] at hmem hnd
    have ha : a = "" := hmem a (by simp)
    have ht : t = [] := by
      cases t with
      | nil => rfl
      | cons b t' =>
        have hb : b = "" := hmem b (by simp)
        exfalso
        rcases List.pairwise_cons.mp hnd with ⟨hab, _⟩
        exact hab b (by simp) (by rw [ha, hb])
    rw [ha, ht]

/-- C10: every key of the candidate index `fcid_sheet` is a non-empty
flowcell id, and a candidate sheet whose rows carry only the empty flowcell
id — in particular a sheet with no data rows, for which `_get_flowcell_id`
returns the empty set — contributes no entry to the index. -/
theorem build_fcid_sheet_keys (dirs : List SheetDir)
    (idx : List (String × String)) (hb : build_fcid_sheet dirs = .ok idx) :
    (∀ p ∈ idx, p.1 ≠ "")
    ∧ ∀ (ss_dir : String) (f : SheetFile) (d : List (String × String)),
        (∀ r ∈ f.rows, r.fc_id = "") → addFile ss_dir d f = .ok d := by
  constructor
  · exact dirsFold_keys_ne_empty dirs [] idx (by simp) hb
  · intro ss_dir f d hrows
    have hall : ∀ x ∈ f.rows.map (fun r => r.fc_id), x = "" := by
      intro x hx
      obtain ⟨r, hr, rfl⟩ := List.mem_map.mp hx
      exact hrows r hr
    rcases dedup_const_empty _ hall with hdd | hdd <;>
      simp [addFile, get_flowcell_id, hdd, except_ok_bind]

/-- A directory with one well-formed single-flowcell candidate sheet, for
the `build_fcid_sheet_keys` witness. -/
def wGoodDir : SheetDir :=
  { path := "sheets", present := true,
    files := [{ name := "b.csv", rows := [⟨"FC9", "1", "S1", "hg19", ""⟩] }] }

/-- Witness for `build_fcid_sheet_keys` at a concrete environment and a
concrete index entry. -/
theorem build_fcid_sheet_keys_witness :
    ((("FC9" : String), ("sheets/b.csv" : String)) : String × String).1 ≠ "" :=
  (build_fcid_sheet_keys [wGoodDir] [("FC9", "sheets/b.csv")] (by rfl)).1
    ("FC9", "sheets/b.csv") (by simp)

theorem mem_insertDesc (x y : ℚ × String) :
    ∀ (l : List (ℚ × String)), y ∈ insertDesc x l ↔ y = x ∨ y ∈ l := by
  intro l
  induction l with
  | nil => simp [insertDesc]
  | cons z zs ih =>
    unfold insertDesc
    by_cases h : scoreGe x z
    · rw [if_pos h]
      simp [List.mem_cons]
    · rw [if_neg h]
      simp only [List.mem_cons, ih]
      tauto

theorem mem_sortDesc (y : ℚ × String) :
    ∀ (l : List (ℚ × String)), y ∈ sortDesc l ↔ y ∈ l := by
  intro l
  induction l with
  | nil => simp [sortDesc]
  | cons x xs ih =>
    unfold sortDesc
    rw [mem_insertDesc]
    simp [ih]

theorem get_close_matches_spec (word : String) (possibilities : List String)
    (n : Nat) (cutoff : ℚ) :
    (get_close_matches word possibilities n cutoff).length ≤ n
    ∧ ∀ y ∈ get_close_matches word possibilities n cutoff,
        y ∈ possibilities ∧ cutoff ≤ simScore y word := by
  constructor
  · simp only [get_close_matches]
    rw [List.length_map]
    exact List.length_take_le n _
  · intro y hy
    simp only [get_close_matches] at hy
    obtain ⟨p, hp, rfl⟩ := List.mem_map.mp hy
    have hp2 := List.mem_of_mem_take hp
    rw [mem_sortDesc] at hp2
    obtain ⟨x, hx, hxp⟩ := List.mem_filterMap.mp hp2
    by_cases hc : cutoff ≤ simScore x word
    · rw [if_pos hc] at hxp
      cases hxp
      exact ⟨hx, hc⟩
    · rw [if_neg hc] at hxp
      cases hxp

theorem lookup_some_of_mem_keys {β : Type} :
    ∀ (l : List (String × β)) (k : String), k ∈ l.map (fun p => p.1) →
      ∃ v, l.lookup k = some v := by
  intro l
  induction l with
  | nil => intro k h; cases h
  | cons p ps ih =>
    intro k h
    obtain ⟨a, b⟩ := p
    by_cases hk : k = a
    · exact ⟨b, by simp [List.lookup, hk]⟩
    · simp only [List.map_cons, List.mem_cons] at h
      rcases h with h1 | h2
      · exact absurd h1 hk
      · obtain ⟨v, hv⟩ := ih k h2
        exact ⟨v, by simp [List.lookup, beq_eq_false_iff_ne.mpr hk, hv]⟩

/-- C8: `run_has_samplesheet` matches the target flowcell name approximately
against the index keys, requesting at most one candidate at similarity
cutoff `0.6`: once the index is built, the call never raises — every
candidate returned by the matcher is an index key of similarity at least
`0.6` to the target, an empty candidate list yields the sentinel `None`, and
a returned candidate, being present in the index, yields its file path. -/
theorem run_has_samplesheet_match (fc_name : String) (config : Config)
    (idx : List (String × String))
    (hb : build_fcid_sheet (config.samplesheet_directories.getD [])
        = .ok idx) :
    ((get_close_matches fc_name (idx.map (fun p => p.1)) 1 (3 / 5)).length ≤ 1)
    ∧ (∀ y ∈ get_close_matches fc_name (idx.map (fun p => p.1)) 1 (3 / 5),
        y ∈ idx.map (fun p => p.1) ∧ (3 / 5 : ℚ) ≤ simScore y fc_name)
    ∧ (∃ r, run_has_samplesheet fc_name config = .ok r)
    ∧ (get_close_matches fc_name (idx.map (fun p => p.1)) 1 (3 / 5) = [] →
        run_has_samplesheet fc_name config = .ok none)
    ∧ ∀ fcid, get_close_matches fc_name (idx.map (fun p => p.1)) 1 (3 / 5)
          = [fcid] →
        ∃ path, idx.lookup fcid = some path
          ∧ run_has_samplesheet fc_name config = .ok (some path) := by
  have hrun : run_has_samplesheet fc_name config
      = ((match get_close_matches fc_name (idx.map (fun p => p.1)) 1 (3 / 5) with
          | [] => pure none
          | p :: _ =>
            match idx.lookup p with
            | some path => pure (some path)
            | none => pure none) : Except String (Option String)) := by
    unfold run_has_samplesheet
    rw [hb, except_ok_bind]
  refine ⟨(get_close_matches_spec fc_name (idx.map (fun p => p.1)) 1 (3 / 5)).1,
    (get_close_matches_spec fc_name (idx.map (fun p => p.1)) 1 (3 / 5)).2,
    ?_, ?_, ?_⟩
  · rw [hrun]
    cases hG : get_close_matches fc_name (idx.map (fun p => p.1)) 1 (3 / 5) with
    | nil => exact ⟨none, rfl⟩
    | cons p rest =>
      cases hL : idx.lookup p with
      | some path =>
        refine ⟨some path, ?_⟩
        show (match idx.lookup p with
          | some path => (pure (some path) : Except String (Option String))
          | none => pure none) = Except.ok (some path)
        rw [hL]
        rfl
      | none =>
        refine ⟨none, ?_⟩
        show (match idx.lookup p with
          | some path => (pure (some path) : Except String (Option String))
          | none => pure none) = Except.ok none
        rw [hL]
        rfl
  · intro hG
    rw [hrun, hG]
    rfl
  · intro fcid hG
    have hmem : fcid ∈ idx.map (fun p => p.1) :=
      ((get_close_matches_spec fc_name (idx.map (fun p => p.1)) 1 (3 / 5)).2
        fcid (by rw [hG]; simp)).1
    obtain ⟨path, hpath⟩ := lookup_some_of_mem_keys idx fcid hmem
    refine ⟨path, hpath, ?_⟩
    rw [hrun, hG]
    show (match idx.lookup fcid with
      | some path => (pure (some path) : Except String (Option String))
      | none => pure none) = Except.ok (some path)
    rw [hpath]
    rfl

/-- Witness for `run_has_samplesheet_match` at a concrete configuration. -/
theorem run_has_samplesheet_match_witness :
    ∃ r, run_has_samplesheet "FCX" ⟨some []⟩ = .ok r :=
  (run_has_samplesheet_match "FCX" ⟨some []⟩ [] rfl).2.2.1

end Bcbb
